import Mathlib

/-!
# Layout and address arithmetic of `v8::internal::Cell`

A shallow embedding of `src/objects/cell.h`: the two layout constants
`kValueOffset` and `kSize`, the `BodyDescriptor` typedef, and the two address
conversions `Cell::FromValueAddress` and `Cell::ValueAddress`.  What the header
only declares (the accessors of the value slot, the cast, the base object's
`FromAddress` and `address`) is modelled from the specification.

Addresses are pointer-width machine words: they are natural numbers below
`2 ^ addressBits`, and every sum or difference of an address and an offset is
reduced modulo `2 ^ addressBits`.  The layout constants are `static const int`
compile-time constants; an overflowing constant expression does not compile, so
they are plain integers here.
-/

namespace v8
namespace internal

/-- The constants that `cell.h` takes from the headers it includes
(`src/objects.h`, `src/globals.h`).  They are parameters of the development:
every theorem below holds for each choice of them.

* `addressBits`: width in bits of `Address`, a pointer-width machine word;
* `kHeapObjectTag`: the tag that separates an object reference from the raw
  start address of the object (`0` makes a reference a plain reinterpretation
  of the address);
* `kHeaderSize`: `HeapObject::kHeaderSize`;
* `kPointerSize`: size in bytes of one pointer-sized reference. -/
structure Config where
  addressBits : Nat
  kHeapObjectTag : Int
  kHeaderSize : Int
  kPointerSize : Int
deriving DecidableEq, Repr

/-- `Address`: a pointer-width machine word, kept as a natural number. -/
abbrev Address := Nat

/-- Reduction of an integer to a pointer-width machine word: the result of
unsigned address arithmetic that wraps around at `2 ^ addressBits`. -/
def wrapAddress (cfg : Config) (z : Int) : Address :=
  (z % (2 : Int) ^ cfg.addressBits).toNat

/-- `Object*`: a generic object reference, given by the bits of the pointer. -/
structure Object where
  ptr : Nat
deriving DecidableEq, Repr

/-- `HeapObject*` (`class HeapObject : public Object`). -/
structure HeapObject extends Object
deriving DecidableEq, Repr

/-- `Cell*` (`class Cell : public HeapObject`). -/
structure Cell extends HeapObject
deriving DecidableEq, Repr

/-- Modelled from the spec: `HeapObject::FromAddress`, declared in
`src/objects.h`, is the base abstraction's "reinterpret raw address as an
object reference" primitive.  The reference to the object that starts at
`address` is the address with the object tag added. -/
def HeapObject.FromAddress (cfg : Config) (address : Address) : HeapObject :=
  { ptr := wrapAddress cfg ((address : Int) + cfg.kHeapObjectTag) }

/-- Modelled from the spec: `HeapObject::address`, declared in `src/objects.h`,
is the base abstraction's `StartAddress()`: the reference with the object tag
removed. -/
def HeapObject.address (cfg : Config) (obj : HeapObject) : Address :=
  wrapAddress cfg ((obj.ptr : Int) - cfg.kHeapObjectTag)

namespace Cell

/-- `static const int kValueOffset = HeapObject::kHeaderSize;` -/
def kValueOffset (cfg : Config) : Int := cfg.kHeaderSize

/-- `static const int kSize = kValueOffset + kPointerSize;` -/
def kSize (cfg : Config) : Int := kValueOffset cfg + cfg.kPointerSize

/-- `Cell::FromValueAddress`:
`Object* result = FromAddress(value - kValueOffset);`
`return static_cast<Cell*>(result);` -/
def FromValueAddress (cfg : Config) (value : Address) : Cell :=
  let result : Object :=
    (HeapObject.FromAddress cfg (wrapAddress cfg ((value : Int) - kValueOffset cfg))).toObject
  { toHeapObject := { toObject := result } }

/-- `Cell::ValueAddress`: `return address() + kValueOffset;` -/
def ValueAddress (cfg : Config) (c : Cell) : Address :=
  wrapAddress cfg ((c.toHeapObject.address cfg : Int) + kValueOffset cfg)

end Cell

/-- `FixedBodyDescriptor<start_offset, end_offset, size>`: the three template
arguments of a descriptor of one fixed range of pointer fields. -/
structure FixedBodyDescriptor where
  kStartOffset : Int
  kEndOffset : Int
  kSize : Int
deriving DecidableEq, Repr

namespace Cell

/-- `typedef FixedBodyDescriptor<kValueOffset, kValueOffset + kPointerSize, kSize>`
`BodyDescriptor;` -/
def BodyDescriptor (cfg : Config) : FixedBodyDescriptor :=
  { kStartOffset := kValueOffset cfg
    kEndOffset := kValueOffset cfg + cfg.kPointerSize
    kSize := kSize cfg }

end Cell

/-- Modelled from the spec: the generic value reference held by the value slot
("a pointer-sized, uniformly representable reference"); its encoding is
declared in `src/objects.h`.  A value either is itself a heap reference or is
an immediate that references nothing. -/
inductive ValueRef where
  | immediate (bits : Nat)
  | heapRef (target : Object)
deriving DecidableEq, Repr

/-- Modelled from the spec: the memory the accessors of a cell act on.
`slots` gives the reference stored in the pointer-sized slot at each address;
`writeBarrier` lists, oldest first, the writes the collector's write-tracking
mechanism has been notified of (slot address and new value). -/
structure Heap where
  slots : Address → ValueRef
  writeBarrier : List (Address × ValueRef)

namespace Cell

/-- Modelled from the spec: `GetValue`, the getter `value()` that
`DECL_ACCESSORS(value, Object)` declares and `src/objects-inl.h` defines:
"reads the current contents of the value slot. No side effects." -/
def value (cfg : Config) (heap : Heap) (c : Cell) : ValueRef :=
  heap.slots (ValueAddress cfg c)

/-- Modelled from the spec: `SetValue`, the setter `set_value(v)` that
`DECL_ACCESSORS(value, Object)` declares and `src/objects-inl.h` defines:
"overwrites the value slot with `v`" and notifies the write barrier "whenever
the new value is itself a heap reference". -/
def set_value (cfg : Config) (heap : Heap) (c : Cell) (v : ValueRef) : Heap :=
  { slots := Function.update heap.slots (ValueAddress cfg c) v
    writeBarrier :=
      match v with
      | .heapRef _ => heap.writeBarrier ++ [(ValueAddress cfg c, v)]
      | .immediate _ => heap.writeBarrier }

end Cell

namespace Cell

end Cell

/-- Modelled from the spec: one call of an accessor of the public contract on
a cell, `GetValue()` or `SetValue(v)`. -/
inductive Access where
  | GetValue (c : Cell)
  | SetValue (c : Cell) (v : ValueRef)
deriving DecidableEq, Repr

namespace Access

/-- Whether the call is a `SetValue`. -/
def isSetValue : Access → Bool
  | GetValue _ => false
  | SetValue _ _ => true

/-- Modelled from the spec: the heap after one accessor call and what the call
returns.  `GetValue` "reads the current contents of the value slot. No side
effects."; `SetValue` returns nothing and leaves the heap as `set_value` does. -/
def perform (cfg : Config) (heap : Heap) : Access → Heap × Option ValueRef
  | GetValue c => (heap, some (Cell.value cfg heap c))
  | SetValue c v => (Cell.set_value cfg heap c v, none)

/-- The heap after a finite sequence of accessor calls, performed in order. -/
def run (cfg : Config) (heap : Heap) (calls : List Access) : Heap :=
  calls.foldl (fun h a => (perform cfg h a).1) heap

/-- The write-barrier notifications a sequence of calls owes: one for each
`SetValue` whose new value is a heap reference, in order, naming the slot
written and the value. -/
def pointerWrites (cfg : Config) : List Access → List (Address × ValueRef)
  | [] => []
  | GetValue _ :: rest => pointerWrites cfg rest
  | SetValue c (ValueRef.heapRef t) :: rest =>
    (Cell.ValueAddress cfg c, ValueRef.heapRef t) :: pointerWrites cfg rest
  | SetValue _ (ValueRef.immediate _) :: rest => pointerWrites cfg rest

end Access

/-! ## Concrete configurations and inputs -/

/-- A 64-bit host: 8-byte header, 8-byte pointers, object tag 1. -/
def cfg64 : Config :=
  { addressBits := 64, kHeapObjectTag := 1, kHeaderSize := 8, kPointerSize := 8 }

/-- A 32-bit host: 4-byte header, 4-byte pointers, object tag 1. -/
def cfg32 : Config :=
  { addressBits := 32, kHeapObjectTag := 1, kHeaderSize := 4, kPointerSize := 4 }

/-- The reference to the cell that starts at address `0x1000` on `cfg64`. -/
def cellAt1000 : Cell :=
  { toHeapObject := { toObject := { ptr := 0x1001 } } }

/-- A reference to an object that is not a cell. -/
def nonCellObject : Object := { ptr := 0x2001 }

/-- A heap whose slots all hold the immediate `0`, with no barrier notified. -/
def zeroHeap : Heap :=
  { slots := fun _ => ValueRef.immediate 0, writeBarrier := [] }

/-- The reference to the cell that starts at address `0x2000` on `cfg64`. -/
def cellAt2000 : Cell :=
  { toHeapObject := { toObject := { ptr := 0x2001 } } }

/-! ## Machine-word arithmetic -/

theorem wrapAddress_lt (cfg : Config) (z : Int) :
    wrapAddress cfg z < 2 ^ cfg.addressBits := by
  have hpos : (0 : Int) < (2 : Int) ^ cfg.addressBits := by positivity
  have h1 := Int.emod_nonneg z (ne_of_gt hpos)
  have h2 := Int.emod_lt_of_pos z hpos
  unfold wrapAddress
  zify
  rw [Int.toNat_of_nonneg h1]
  exact_mod_cast h2

theorem wrapAddress_cast (cfg : Config) (z : Int) :
    ((wrapAddress cfg z : Nat) : Int) = z % (2 : Int) ^ cfg.addressBits := by
  have hpos : (0 : Int) < (2 : Int) ^ cfg.addressBits := by positivity
  unfold wrapAddress
  exact Int.toNat_of_nonneg (Int.emod_nonneg z (ne_of_gt hpos))

/-- A wrapped value is congruent to the value it wraps. -/
theorem wrapAddress_modEq (cfg : Config) (z : Int) :
    ((wrapAddress cfg z : Nat) : Int) ≡ z [ZMOD (2 : Int) ^ cfg.addressBits] := by
  rw [wrapAddress_cast]
  exact Int.mod_modEq z _

/-- Congruent values wrap to the same machine word. -/
theorem wrapAddress_congr (cfg : Config) {x y : Int}
    (h : x ≡ y [ZMOD (2 : Int) ^ cfg.addressBits]) :
    wrapAddress cfg x = wrapAddress cfg y := by
  unfold wrapAddress
  rw [h.eq]

/-- Adding an offset to a wrapped value and wrapping again is wrapping the sum. -/
theorem wrapAddress_add_wrap (cfg : Config) (z k : Int) :
    wrapAddress cfg ((wrapAddress cfg z : Int) + k) = wrapAddress cfg (z + k) :=
  wrapAddress_congr cfg ((wrapAddress_modEq cfg z).add_right k)

theorem wrapAddress_sub_wrap (cfg : Config) (z k : Int) :
    wrapAddress cfg ((wrapAddress cfg z : Int) - k) = wrapAddress cfg (z - k) :=
  wrapAddress_congr cfg ((wrapAddress_modEq cfg z).sub_right k)

/-- A value that already is a machine word is left alone. -/
theorem wrapAddress_of_lt (cfg : Config) (a : Nat) (h : a < 2 ^ cfg.addressBits) :
    wrapAddress cfg (a : Int) = a := by
  unfold wrapAddress
  have h2 : ((a : Int)) < (2 : Int) ^ cfg.addressBits := by exact_mod_cast h
  rw [Int.emod_eq_of_lt (Int.ofNat_nonneg a) h2]
  simp

/-! ## Round trips between a cell and the address of its value slot -/

theorem HeapObject.address_FromAddress (cfg : Config) (a : Int) :
    (HeapObject.FromAddress cfg (wrapAddress cfg a)).address cfg = wrapAddress cfg a := by
  unfold HeapObject.address HeapObject.FromAddress
  simp only
  rw [wrapAddress_add_wrap, wrapAddress_sub_wrap]
  congr 1
  ring

namespace Cell

/-- Going to the value slot and back reaches the same reference. -/
theorem roundTrip_of_lt (cfg : Config) (c : Cell)
    (hc : c.ptr < 2 ^ cfg.addressBits) :
    FromValueAddress cfg (ValueAddress cfg c) = c := by
  obtain ⟨⟨⟨p⟩⟩⟩ := c
  simp only at hc
  unfold FromValueAddress ValueAddress HeapObject.FromAddress HeapObject.address
  simp only [Cell.mk.injEq, HeapObject.mk.injEq, Object.mk.injEq]
  have h1 := ((wrapAddress_modEq cfg ((p : Int) - cfg.kHeapObjectTag)).add_right
    (kValueOffset cfg))
  have h2 := ((wrapAddress_modEq cfg _).trans h1).sub_right (kValueOffset cfg)
  have h3 := ((wrapAddress_modEq cfg _).trans h2).add_right cfg.kHeapObjectTag
  have h : (p : Int) - cfg.kHeapObjectTag + kValueOffset cfg - kValueOffset cfg
      + cfg.kHeapObjectTag = (p : Int) := by ring
  rw [h] at h3
  rw [wrapAddress_congr cfg h3]
  exact wrapAddress_of_lt cfg p hc

/-- C1: for every cell `c` (a pointer-width reference) and every configuration
of header size, pointer size, object tag and address width,
`FromValueAddress(c.ValueAddress()) == c`. -/
theorem FromValueAddress_ValueAddress (cfg : Config) (c : Cell)
    (hc : c.ptr < 2 ^ cfg.addressBits) :
    FromValueAddress cfg (ValueAddress cfg c) = c :=
  roundTrip_of_lt cfg c hc

theorem FromValueAddress_ValueAddress_witness :
    cellAt1000.ptr < 2 ^ cfg64.addressBits ∧
      FromValueAddress cfg64 (ValueAddress cfg64 cellAt1000) = cellAt1000 :=
  ⟨by decide, FromValueAddress_ValueAddress cfg64 cellAt1000 (by decide)⟩

/-- C2: for every address `a` (every pointer-width word, aligned or not, the
value slot of a live cell or not), `FromValueAddress(a).ValueAddress() == a`. -/
theorem ValueAddress_FromValueAddress (cfg : Config) (a : Address)
    (ha : a < 2 ^ cfg.addressBits) :
    ValueAddress cfg (FromValueAddress cfg a) = a := by
  unfold FromValueAddress ValueAddress
  simp only
  rw [HeapObject.address_FromAddress, wrapAddress_add_wrap]
  have h : (a : Int) - kValueOffset cfg + kValueOffset cfg = (a : Int) := by ring
  rw [h]
  exact wrapAddress_of_lt cfg a ha

theorem ValueAddress_FromValueAddress_witness :
    0x1003 < 2 ^ cfg64.addressBits ∧
      ValueAddress cfg64 (FromValueAddress cfg64 0x1003) = 0x1003 :=
  ⟨by decide, ValueAddress_FromValueAddress cfg64 0x1003 (by decide)⟩

/-! ## Layout constants and the body descriptor -/

/-- C3: offset law.  The value offset is the header size of the base object,
and the object size is the value offset plus one pointer size. -/
theorem offset_law (cfg : Config) :
    kValueOffset cfg = cfg.kHeaderSize ∧
      kSize cfg = kValueOffset cfg + cfg.kPointerSize :=
  ⟨rfl, rfl⟩

/-- C4: the body descriptor is the triple `(start, end, size)` with
`start == kValueOffset`, `end == kValueOffset + kPointerSize`, hence
`end - start == kPointerSize`, and `size == kSize`. -/
theorem BodyDescriptor_triple (cfg : Config) :
    (BodyDescriptor cfg).kStartOffset = kValueOffset cfg ∧
      (BodyDescriptor cfg).kEndOffset = kValueOffset cfg + cfg.kPointerSize ∧
      (BodyDescriptor cfg).kEndOffset - (BodyDescriptor cfg).kStartOffset
        = cfg.kPointerSize ∧
      (BodyDescriptor cfg).kSize = kSize cfg := by
  refine ⟨rfl, rfl, ?_, rfl⟩
  simp [BodyDescriptor]

/-- C5: for every non-negative header size and pointer size, the body
descriptor satisfies `0 <= start <= end <= objectSize`. -/
theorem BodyDescriptor_ordered (cfg : Config)
    (hHeader : 0 ≤ cfg.kHeaderSize) (hPointer : 0 ≤ cfg.kPointerSize) :
    0 ≤ (BodyDescriptor cfg).kStartOffset ∧
      (BodyDescriptor cfg).kStartOffset ≤ (BodyDescriptor cfg).kEndOffset ∧
      (BodyDescriptor cfg).kEndOffset ≤ (BodyDescriptor cfg).kSize := by
  simp only [BodyDescriptor, kSize, kValueOffset]
  refine ⟨hHeader, ?_, le_refl _⟩
  linarith

theorem BodyDescriptor_ordered_witness :
    0 ≤ (BodyDescriptor cfg32).kStartOffset ∧
      (BodyDescriptor cfg32).kStartOffset ≤ (BodyDescriptor cfg32).kEndOffset ∧
      (BodyDescriptor cfg32).kEndOffset ≤ (BodyDescriptor cfg32).kSize :=
  BodyDescriptor_ordered cfg32 (by decide) (by decide)

/-! ## The two address conversions -/

/-- C7: `c.ValueAddress() == c.address() + kValueOffset` in pointer-width
arithmetic; when the sum does not leave the address range it is the exact
integer sum. -/
theorem ValueAddress_eq_address_add (cfg : Config) (c : Cell) :
    ValueAddress cfg c
        = wrapAddress cfg ((c.toHeapObject.address cfg : Int) + kValueOffset cfg) ∧
      (0 ≤ (c.toHeapObject.address cfg : Int) + kValueOffset cfg →
        (c.toHeapObject.address cfg : Int) + kValueOffset cfg < 2 ^ cfg.addressBits →
        (ValueAddress cfg c : Int) = (c.toHeapObject.address cfg : Int) + kValueOffset cfg) := by
  refine ⟨rfl, fun h0 h1 => ?_⟩
  unfold ValueAddress
  rw [wrapAddress_cast]
  exact Int.emod_eq_of_lt h0 h1

theorem ValueAddress_eq_address_add_witness :
    (ValueAddress cfg64 cellAt1000 : Int)
      = (cellAt1000.toHeapObject.address cfg64 : Int) + kValueOffset cfg64 :=
  (ValueAddress_eq_address_add cfg64 cellAt1000).2 (by decide) (by decide)

/-- C8: the start address of `FromValueAddress(a)` is `a - kValueOffset` in
pointer-width arithmetic; when the offset is not larger than the address it is
the exact integer difference. -/
theorem address_FromValueAddress (cfg : Config) (a : Address) :
    (FromValueAddress cfg a).toHeapObject.address cfg
        = wrapAddress cfg ((a : Int) - kValueOffset cfg) ∧
      (a < 2 ^ cfg.addressBits → 0 ≤ kValueOffset cfg → kValueOffset cfg ≤ (a : Int) →
        ((FromValueAddress cfg a).toHeapObject.address cfg : Int)
          = (a : Int) - kValueOffset cfg) := by
  have h : (FromValueAddress cfg a).toHeapObject.address cfg
      = wrapAddress cfg ((a : Int) - kValueOffset cfg) := by
    unfold FromValueAddress
    exact HeapObject.address_FromAddress cfg _
  refine ⟨h, fun ha h0 h1 => ?_⟩
  rw [h, wrapAddress_cast]
  have ha2 : ((a : Int)) < (2 : Int) ^ cfg.addressBits := by exact_mod_cast ha
  exact Int.emod_eq_of_lt (by linarith) (by linarith)

theorem address_FromValueAddress_witness :
    ((FromValueAddress cfg64 0x1008).toHeapObject.address cfg64 : Int)
      = ((0x1008 : Nat) : Int) - kValueOffset cfg64 :=
  (address_FromValueAddress cfg64 0x1008).2 (by decide) (by decide) (by decide)

/-- C10: the range described to the collector is exactly the value slot.  Its
start is the offset `ValueAddress` adds to the start address, its end is one
pointer size later and is the end of the object; no offset inside the header
and no offset at or after the end of the slot lies in the range, and every
offset of the object past the header does. -/
theorem BodyDescriptor_is_value_slot (cfg : Config) :
    (∀ c : Cell, ValueAddress cfg c
        = wrapAddress cfg ((c.toHeapObject.address cfg : Int)
            + (BodyDescriptor cfg).kStartOffset)) ∧
      (BodyDescriptor cfg).kEndOffset
        = (BodyDescriptor cfg).kStartOffset + cfg.kPointerSize ∧
      (BodyDescriptor cfg).kEndOffset = (BodyDescriptor cfg).kSize ∧
      (∀ i : Int, i < cfg.kHeaderSize →
        ¬ ((BodyDescriptor cfg).kStartOffset ≤ i ∧ i < (BodyDescriptor cfg).kEndOffset)) ∧
      (∀ i : Int, kValueOffset cfg + cfg.kPointerSize ≤ i →
        ¬ ((BodyDescriptor cfg).kStartOffset ≤ i ∧ i < (BodyDescriptor cfg).kEndOffset)) ∧
      (∀ i : Int, cfg.kHeaderSize ≤ i → i < kSize cfg →
        ((BodyDescriptor cfg).kStartOffset ≤ i ∧ i < (BodyDescriptor cfg).kEndOffset)) := by
  refine ⟨fun c => rfl, rfl, rfl, ?_, ?_, ?_⟩
  · intro i hi h
    have h1 : cfg.kHeaderSize ≤ i := h.1
    linarith
  · intro i hi h
    have h2 : i < kValueOffset cfg + cfg.kPointerSize := h.2
    linarith
  · intro i h1 h2
    exact ⟨h1, h2⟩

theorem BodyDescriptor_is_value_slot_witness :
    (BodyDescriptor cfg64).kStartOffset ≤ 8 ∧ 8 < (BodyDescriptor cfg64).kEndOffset :=
  (BodyDescriptor_is_value_slot cfg64).2.2.2.2.2 8 (by decide) (by decide)

/-! ## The accessors of the value slot -/

theorem value_set_value_same (cfg : Config) (heap : Heap) (c : Cell) (v : ValueRef) :
    value cfg (set_value cfg heap c v) c = v := by
  simp [value, set_value]

theorem value_foldl_set_value (cfg : Config) (c : Cell) (vs : List ValueRef) :
    ∀ heap : Heap,
      value cfg (vs.foldl (fun h v => set_value cfg h c v) heap) c
        = vs.getLast?.getD (value cfg heap c) := by
  induction vs with
  | nil => intro heap; rfl
  | cons v rest ih =>
    intro heap
    rw [List.foldl_cons, ih]
    cases rest with
    | nil => simp [value_set_value_same]
    | cons w rest2 =>
      rw [List.getLast?_cons_cons]
      obtain ⟨x, hx⟩ : ∃ x, (w :: rest2).getLast? = some x :=
        ⟨_, List.getLast?_eq_getLast _ (List.cons_ne_nil w rest2)⟩
      simp [hx]

/-- C6: mutation visibility.  After `c.SetValue(v)` a following `c.GetValue()`
returns `v`; after any finite sequence of `SetValue` calls on `c` it returns
the argument of the last one, and after none the value the cell had at the
start. -/
theorem mutation_visibility (cfg : Config) (heap : Heap) (c : Cell) :
    (∀ v : ValueRef, value cfg (set_value cfg heap c v) c = v) ∧
      (∀ (vs : List ValueRef) (v : ValueRef),
        value cfg ((vs ++ [v]).foldl (fun h w => set_value cfg h c w) heap) c = v) ∧
      (∀ vs : List ValueRef,
        value cfg (vs.foldl (fun h w => set_value cfg h c w) heap) c
          = vs.getLast?.getD (value cfg heap c)) ∧
      value cfg (([] : List ValueRef).foldl (fun h w => set_value cfg h c w) heap) c
        = value cfg heap c := by
  refine ⟨fun v => value_set_value_same cfg heap c v, fun vs v => ?_,
    fun vs => value_foldl_set_value cfg c vs heap, rfl⟩
  rw [value_foldl_set_value]
  simp

/-! ## Casting a generic object reference to a cell -/

theorem wrapAddress_of_nonneg_of_lt (cfg : Config) (z : Int) (h0 : 0 ≤ z)
    (h1 : z < (2 : Int) ^ cfg.addressBits) :
    ((wrapAddress cfg z : Nat) : Int) = z := by
  rw [wrapAddress_cast]
  exact Int.emod_eq_of_lt h0 h1

theorem address_FromAddress_of_lt (cfg : Config) (a : Address)
    (ha : a < 2 ^ cfg.addressBits) :
    (HeapObject.FromAddress cfg a).address cfg = a := by
  have h := HeapObject.address_FromAddress cfg (a : Int)
  rw [wrapAddress_of_lt cfg a ha] at h
  exact h

theorem valueAddress_cast_of_no_wrap (cfg : Config) (c : Cell)
    (h0 : 0 ≤ (c.toHeapObject.address cfg : Int) + kValueOffset cfg)
    (h1 : (c.toHeapObject.address cfg : Int) + kValueOffset cfg < 2 ^ cfg.addressBits) :
    (ValueAddress cfg c : Int) = (c.toHeapObject.address cfg : Int) + kValueOffset cfg := by
  unfold ValueAddress
  exact wrapAddress_of_nonneg_of_lt cfg _ h0 h1

/-! ## The layout of the object -/

/-- C11: the object is the header followed at once by the value slot.  For
non-negative sizes the header range `[0, kHeaderSize)` and the value range
`[kValueOffset, kValueOffset + kPointerSize)` are disjoint, the second starts
where the first ends, and together they are exactly `[0, kSize)`; for every
cell `c.ValueAddress() + kPointerSize == c.address() + kSize`, in pointer-width
arithmetic and, where the value address does not wrap, as integers. -/
theorem header_then_value_slot (cfg : Config)
    (hHeader : 0 ≤ cfg.kHeaderSize) (hPointer : 0 ≤ cfg.kPointerSize) :
    (∀ i : Int, ¬ ((0 ≤ i ∧ i < cfg.kHeaderSize) ∧
        (kValueOffset cfg ≤ i ∧ i < kValueOffset cfg + cfg.kPointerSize))) ∧
      cfg.kHeaderSize = kValueOffset cfg ∧
      (∀ i : Int, (0 ≤ i ∧ i < kSize cfg) ↔
        ((0 ≤ i ∧ i < cfg.kHeaderSize) ∨
          (kValueOffset cfg ≤ i ∧ i < kValueOffset cfg + cfg.kPointerSize))) ∧
      (∀ c : Cell, wrapAddress cfg ((ValueAddress cfg c : Int) + cfg.kPointerSize)
        = wrapAddress cfg ((c.toHeapObject.address cfg : Int) + kSize cfg)) ∧
      (∀ c : Cell, 0 ≤ (c.toHeapObject.address cfg : Int) + kValueOffset cfg →
        (c.toHeapObject.address cfg : Int) + kValueOffset cfg < 2 ^ cfg.addressBits →
        (ValueAddress cfg c : Int) + cfg.kPointerSize
          = (c.toHeapObject.address cfg : Int) + kSize cfg) := by
  have hv : kValueOffset cfg = cfg.kHeaderSize := rfl
  have hs : kSize cfg = cfg.kHeaderSize + cfg.kPointerSize := rfl
  refine ⟨?_, rfl, ?_, ?_, ?_⟩
  · rintro i ⟨⟨_, h1⟩, ⟨h2, _⟩⟩
    rw [hv] at h2
    linarith
  · intro i
    rw [hv, hs]
    constructor
    · rintro ⟨h0, h1⟩
      by_cases h : i < cfg.kHeaderSize
      · exact Or.inl ⟨h0, h⟩
      · exact Or.inr ⟨not_lt.mp h, h1⟩
    · rintro (⟨h0, h1⟩ | ⟨h0, h1⟩)
      · exact ⟨h0, by linarith⟩
      · exact ⟨by linarith, h1⟩
  · intro c
    unfold ValueAddress
    rw [wrapAddress_add_wrap, hs, hv]
    congr 1
    ring
  · intro c h0 h1
    rw [valueAddress_cast_of_no_wrap cfg c h0 h1, hs, hv]
    ring

theorem header_then_value_slot_witness :
    (ValueAddress cfg64 cellAt1000 : Int) + cfg64.kPointerSize
      = (cellAt1000.toHeapObject.address cfg64 : Int) + kSize cfg64 :=
  (header_then_value_slot cfg64 (by decide) (by decide)).2.2.2.2 cellAt1000
    (by decide) (by decide)

/-- C12: the concrete scenario.  With header size 8 and pointer size 8 (any
object tag, any address width that holds `0x1008`) the value offset is 8 and
the size 16; the cell at address `0x1000` has value address `0x1008`;
`FromValueAddress(0x1008)` is the cell at `0x1000`; the body descriptor is
`(8, 16, 16)`. -/
theorem concrete_scenario (cfg : Config)
    (hHeader : cfg.kHeaderSize = 8) (hPointer : cfg.kPointerSize = 8)
    (hWidth : 0x1008 < 2 ^ cfg.addressBits) :
    kValueOffset cfg = 8 ∧ kSize cfg = 16 ∧
      (HeapObject.FromAddress cfg 0x1000).address cfg = 0x1000 ∧
      ValueAddress cfg { toHeapObject := HeapObject.FromAddress cfg 0x1000 } = 0x1008 ∧
      FromValueAddress cfg 0x1008 = { toHeapObject := HeapObject.FromAddress cfg 0x1000 } ∧
      (FromValueAddress cfg 0x1008).toHeapObject.address cfg = 0x1000 ∧
      BodyDescriptor cfg = { kStartOffset := 8, kEndOffset := 16, kSize := 16 } := by
  have hv : kValueOffset cfg = 8 := hHeader
  have hs : kSize cfg = 16 := by
    unfold kSize
    rw [hv, hPointer]
    rfl
  have hlt : 0x1000 < 2 ^ cfg.addressBits := lt_trans (by norm_num) hWidth
  have ha : (HeapObject.FromAddress cfg 0x1000).address cfg = 0x1000 :=
    address_FromAddress_of_lt cfg 0x1000 hlt
  have hw : wrapAddress cfg (((0x1008 : Nat) : Int) - kValueOffset cfg) = 0x1000 := by
    rw [hv]
    exact wrapAddress_of_lt cfg 0x1000 hlt
  have hf : FromValueAddress cfg 0x1008
      = { toHeapObject := HeapObject.FromAddress cfg 0x1000 } := by
    unfold FromValueAddress
    simp only [hw]
  refine ⟨hv, hs, ha, ?_, hf, ?_, ?_⟩
  · unfold ValueAddress
    simp only [ha, hv]
    exact wrapAddress_of_lt cfg 0x1008 hWidth
  · rw [hf]
    exact ha
  · unfold BodyDescriptor
    rw [hs, hv, hPointer]
    rfl

theorem concrete_scenario_witness :
    kValueOffset cfg64 = 8 ∧ kSize cfg64 = 16 ∧
      (HeapObject.FromAddress cfg64 0x1000).address cfg64 = 0x1000 ∧
      ValueAddress cfg64 { toHeapObject := HeapObject.FromAddress cfg64 0x1000 } = 0x1008 ∧
      FromValueAddress cfg64 0x1008 = { toHeapObject := HeapObject.FromAddress cfg64 0x1000 } ∧
      (FromValueAddress cfg64 0x1008).toHeapObject.address cfg64 = 0x1000 ∧
      BodyDescriptor cfg64 = { kStartOffset := 8, kEndOffset := 16, kSize := 16 } :=
  concrete_scenario cfg64 rfl rfl (by decide)


/-! ## What the accessors leave alone -/

theorem ValueAddress_injective_of_lt (cfg : Config) (c d : Cell)
    (hc : c.ptr < 2 ^ cfg.addressBits) (hd : d.ptr < 2 ^ cfg.addressBits)
    (h : ValueAddress cfg c = ValueAddress cfg d) : c = d := by
  rw [← roundTrip_of_lt cfg c hc, ← roundTrip_of_lt cfg d hd, h]

theorem modEq_of_wrapAddress_eq (cfg : Config) {x y : Int}
    (h : wrapAddress cfg x = wrapAddress cfg y) :
    x ≡ y [ZMOD (2 : Int) ^ cfg.addressBits] := by
  have h2 : ((wrapAddress cfg x : Nat) : Int) = ((wrapAddress cfg y : Nat) : Int) := by
    rw [h]
  rw [wrapAddress_cast, wrapAddress_cast] at h2
  exact h2

theorem slots_set_value_of_ne (cfg : Config) (heap : Heap) (c : Cell) (v : ValueRef)
    (a : Address) (ha : a ≠ ValueAddress cfg c) :
    (set_value cfg heap c v).slots a = heap.slots a := by
  simp [set_value, Function.update_noteq ha]

/-- An address inside the header of a cell is not the address of its value
slot, as long as the header is shorter than the address space. -/
theorem header_address_ne_ValueAddress (cfg : Config) (c : Cell) (i : Int)
    (h0 : 0 ≤ i) (h1 : i < kValueOffset cfg)
    (hH : kValueOffset cfg < 2 ^ cfg.addressBits) :
    wrapAddress cfg ((c.toHeapObject.address cfg : Int) + i) ≠ ValueAddress cfg c := by
  intro h
  have hm := (modEq_of_wrapAddress_eq cfg h).dvd
  have hd : (2 : Int) ^ cfg.addressBits ∣ kValueOffset cfg - i := by
    have e : (c.toHeapObject.address cfg : Int) + kValueOffset cfg
        - ((c.toHeapObject.address cfg : Int) + i) = kValueOffset cfg - i := by ring
    rw [e] at hm
    exact hm
  have hle := Int.le_of_dvd (by linarith) hd
  linarith

theorem run_cons (cfg : Config) (heap : Heap) (a : Access) (calls : List Access) :
    Access.run cfg heap (a :: calls) = Access.run cfg (Access.perform cfg heap a).1 calls :=
  rfl

theorem run_filter_isSetValue (cfg : Config) (calls : List Access) :
    ∀ heap : Heap,
      Access.run cfg heap (calls.filter Access.isSetValue) = Access.run cfg heap calls := by
  induction calls with
  | nil => intro heap; rfl
  | cons a rest ih =>
    intro heap
    cases a with
    | GetValue c =>
      have e : (Access.GetValue c :: rest).filter Access.isSetValue
          = rest.filter Access.isSetValue := rfl
      rw [e, run_cons, ih]
      rfl
    | SetValue c v =>
      have e : (Access.SetValue c v :: rest).filter Access.isSetValue
          = Access.SetValue c v :: rest.filter Access.isSetValue := rfl
      rw [e, run_cons, run_cons, ih]

/-- C13: `GetValue` has no side effects and `SetValue` changes only the value
slot.  A `GetValue` call returns the heap it was given, so dropping every
`GetValue` from a sequence of calls does not change the final heap; after
`SetValue(v)` on `c` every slot other than the value slot of `c` holds what it
held before, in particular every slot inside the header of `c` and the value
slot of every other cell. -/
theorem accessors_frame (cfg : Config) (heap : Heap) (c : Cell) :
    (Access.perform cfg heap (Access.GetValue c)).1 = heap ∧
      (∀ calls : List Access,
        Access.run cfg heap (calls.filter Access.isSetValue) = Access.run cfg heap calls) ∧
      (∀ (v : ValueRef) (a : Address), a ≠ ValueAddress cfg c →
        (set_value cfg heap c v).slots a = heap.slots a) ∧
      (∀ (v : ValueRef) (i : Int), 0 ≤ i → i < kValueOffset cfg →
        kValueOffset cfg < 2 ^ cfg.addressBits →
        (set_value cfg heap c v).slots
            (wrapAddress cfg ((c.toHeapObject.address cfg : Int) + i))
          = heap.slots (wrapAddress cfg ((c.toHeapObject.address cfg : Int) + i))) ∧
      (∀ (v : ValueRef) (d : Cell), c.ptr < 2 ^ cfg.addressBits →
        d.ptr < 2 ^ cfg.addressBits → d ≠ c →
        value cfg (set_value cfg heap c v) d = value cfg heap d) := by
  refine ⟨rfl, fun calls => run_filter_isSetValue cfg calls heap,
    fun v a ha => slots_set_value_of_ne cfg heap c v a ha, ?_, ?_⟩
  · intro v i h0 h1 hH
    exact slots_set_value_of_ne cfg heap c v _
      (header_address_ne_ValueAddress cfg c i h0 h1 hH)
  · intro v d hc hd hne
    unfold value
    exact slots_set_value_of_ne cfg heap c v _
      (fun h => hne (ValueAddress_injective_of_lt cfg d c hd hc h))

theorem accessors_frame_witness :
    (set_value cfg64 zeroHeap cellAt1000 (ValueRef.heapRef nonCellObject)).slots
        (wrapAddress cfg64 ((cellAt1000.toHeapObject.address cfg64 : Int) + 0))
      = zeroHeap.slots (wrapAddress cfg64 ((cellAt1000.toHeapObject.address cfg64 : Int) + 0)) :=
  (accessors_frame cfg64 zeroHeap cellAt1000).2.2.2.1 (ValueRef.heapRef nonCellObject) 0
    (by decide) (by decide) (by decide)

/-! ## The write barrier -/

theorem writeBarrier_run (cfg : Config) (calls : List Access) :
    ∀ heap : Heap,
      (Access.run cfg heap calls).writeBarrier
        = heap.writeBarrier ++ Access.pointerWrites cfg calls := by
  induction calls with
  | nil => intro heap; simp [Access.run, Access.pointerWrites]
  | cons a rest ih =>
    intro heap
    rw [run_cons, ih]
    cases a with
    | GetValue c => simp [Access.perform, Access.pointerWrites]
    | SetValue c v =>
      cases v with
      | immediate b => simp [Access.perform, Access.pointerWrites, set_value]
      | heapRef t => simp [Access.perform, Access.pointerWrites, set_value]

/-- Every heap reference held by a slot has been notified to the barrier. -/
theorem barrier_covers_perform (cfg : Config) (heap : Heap) (call : Access)
    (h : ∀ a t, heap.slots a = ValueRef.heapRef t →
      (a, ValueRef.heapRef t) ∈ heap.writeBarrier) :
    ∀ a t, (Access.perform cfg heap call).1.slots a = ValueRef.heapRef t →
      (a, ValueRef.heapRef t) ∈ (Access.perform cfg heap call).1.writeBarrier := by
  cases call with
  | GetValue c => exact h
  | SetValue c v =>
    intro a t hs
    by_cases ha : a = ValueAddress cfg c
    · subst ha
      have hv : v = ValueRef.heapRef t := by
        simpa [Access.perform, set_value] using hs
      subst hv
      simp [Access.perform, set_value]
    · have hs2 : heap.slots a = ValueRef.heapRef t := by
        rw [← slots_set_value_of_ne cfg heap c v a ha]
        exact hs
      have hm := h a t hs2
      cases v with
      | immediate b => simpa [Access.perform, set_value] using hm
      | heapRef u => simp [Access.perform, set_value, hm]

theorem barrier_covers_run (cfg : Config) (calls : List Access) :
    ∀ heap : Heap,
      (∀ a t, heap.slots a = ValueRef.heapRef t →
        (a, ValueRef.heapRef t) ∈ heap.writeBarrier) →
      ∀ a t, (Access.run cfg heap calls).slots a = ValueRef.heapRef t →
        (a, ValueRef.heapRef t) ∈ (Access.run cfg heap calls).writeBarrier := by
  induction calls with
  | nil => intro heap h; exact h
  | cons call rest ih =>
    intro heap h
    rw [run_cons]
    exact ih _ (barrier_covers_perform cfg heap call h)

/-- C14: every `SetValue` whose new value is a heap reference notifies the
write barrier.  The heap a `SetValue(heapRef t)` returns holds both the new
slot content and, as the newest entry of the barrier log, the notification of
that write; over any sequence of calls the log grows by exactly the
pointer-valued writes, in order; and if every heap reference held by a slot had
been notified before the sequence, the same is true after it. -/
theorem write_barrier_notified (cfg : Config) (heap : Heap) :
    (∀ (c : Cell) (t : Object),
        (set_value cfg heap c (ValueRef.heapRef t)).slots (ValueAddress cfg c)
            = ValueRef.heapRef t ∧
          (set_value cfg heap c (ValueRef.heapRef t)).writeBarrier
            = heap.writeBarrier ++ [(ValueAddress cfg c, ValueRef.heapRef t)]) ∧
      (∀ calls : List Access,
        (Access.run cfg heap calls).writeBarrier
          = heap.writeBarrier ++ Access.pointerWrites cfg calls) ∧
      ((∀ a t, heap.slots a = ValueRef.heapRef t →
          (a, ValueRef.heapRef t) ∈ heap.writeBarrier) →
        ∀ (calls : List Access) (a : Address) (t : Object),
          (Access.run cfg heap calls).slots a = ValueRef.heapRef t →
            (a, ValueRef.heapRef t) ∈ (Access.run cfg heap calls).writeBarrier) := by
  refine ⟨fun c t => ⟨by simp [set_value], rfl⟩,
    fun calls => writeBarrier_run cfg calls heap,
    fun h calls => barrier_covers_run cfg calls heap h⟩

theorem write_barrier_notified_witness :
    ((0x1008 : Address), ValueRef.heapRef nonCellObject)
      ∈ (Access.run cfg64 zeroHeap
          [Access.SetValue cellAt1000 (ValueRef.immediate 7), Access.GetValue cellAt1000,
            Access.SetValue cellAt1000 (ValueRef.heapRef nonCellObject)]).writeBarrier :=
  (write_barrier_notified cfg64 zeroHeap).2.2 (fun _ _ h => ValueRef.noConfusion h)
    [Access.SetValue cellAt1000 (ValueRef.immediate 7), Access.GetValue cellAt1000,
      Access.SetValue cellAt1000 (ValueRef.heapRef nonCellObject)]
    0x1008 nonCellObject (by decide)


/-! ## Injectivity, separation and alignment -/

theorem valueAddress_fromValueAddress_of_lt (cfg : Config) (a : Address)
    (ha : a < 2 ^ cfg.addressBits) :
    ValueAddress cfg (FromValueAddress cfg a) = a := by
  unfold FromValueAddress ValueAddress
  simp only
  rw [HeapObject.address_FromAddress, wrapAddress_add_wrap]
  have h : (a : Int) - kValueOffset cfg + kValueOffset cfg = (a : Int) := by ring
  rw [h]
  exact wrapAddress_of_lt cfg a ha

/-- C15: both address conversions are injective on pointer-width words, wrap-around
included: equal value addresses come from equal cells, and equal cells come
from equal value addresses. -/
theorem address_conversions_injective (cfg : Config) :
    (∀ c d : Cell, c.ptr < 2 ^ cfg.addressBits → d.ptr < 2 ^ cfg.addressBits →
        ValueAddress cfg c = ValueAddress cfg d → c = d) ∧
      (∀ a b : Address, a < 2 ^ cfg.addressBits → b < 2 ^ cfg.addressBits →
        FromValueAddress cfg a = FromValueAddress cfg b → a = b) := by
  refine ⟨fun c d hc hd h => ValueAddress_injective_of_lt cfg c d hc hd h, ?_⟩
  intro a b ha hb h
  rw [← valueAddress_fromValueAddress_of_lt cfg a ha,
    ← valueAddress_fromValueAddress_of_lt cfg b hb, h]

theorem address_conversions_injective_witness :
    ValueAddress cfg64 cellAt1000 ≠ ValueAddress cfg64 cellAt2000 ∧
      FromValueAddress cfg64 3 ≠ FromValueAddress cfg64 (2 ^ 64 - 5) :=
  ⟨fun h => absurd
      ((address_conversions_injective cfg64).1 cellAt1000 cellAt2000
        (by decide) (by decide) h) (by decide),
    fun h => absurd
      ((address_conversions_injective cfg64).2 3 (2 ^ 64 - 5) (by decide) (by decide) h)
      (by decide)⟩

/-- C16: cells whose objects do not overlap have value slots that do not
overlap.  With a non-negative header size and a positive pointer size, if
neither object wraps around the end of the address space and the start
addresses are at least `kSize` apart, the byte ranges
`[ValueAddress, ValueAddress + kPointerSize)` of the two cells are disjoint and
each lies inside `[address, address + kSize)` of its own cell. -/
theorem value_slots_disjoint (cfg : Config) (c d : Cell)
    (hHeader : 0 ≤ cfg.kHeaderSize) (hPointer : 0 < cfg.kPointerSize)
    (hc : (c.toHeapObject.address cfg : Int) + kSize cfg ≤ 2 ^ cfg.addressBits)
    (hd : (d.toHeapObject.address cfg : Int) + kSize cfg ≤ 2 ^ cfg.addressBits)
    (hsep : (c.toHeapObject.address cfg : Int) + kSize cfg ≤ (d.toHeapObject.address cfg : Int) ∨
      (d.toHeapObject.address cfg : Int) + kSize cfg ≤ (c.toHeapObject.address cfg : Int)) :
    (∀ x : Int,
        ¬ (((ValueAddress cfg c : Int) ≤ x ∧ x < (ValueAddress cfg c : Int) + cfg.kPointerSize) ∧
          ((ValueAddress cfg d : Int) ≤ x ∧ x < (ValueAddress cfg d : Int) + cfg.kPointerSize))) ∧
      ((c.toHeapObject.address cfg : Int) ≤ (ValueAddress cfg c : Int) ∧
        (ValueAddress cfg c : Int) + cfg.kPointerSize
          ≤ (c.toHeapObject.address cfg : Int) + kSize cfg) ∧
      ((d.toHeapObject.address cfg : Int) ≤ (ValueAddress cfg d : Int) ∧
        (ValueAddress cfg d : Int) + cfg.kPointerSize
          ≤ (d.toHeapObject.address cfg : Int) + kSize cfg) := by
  have hv : kValueOffset cfg = cfg.kHeaderSize := rfl
  have hs : kSize cfg = cfg.kHeaderSize + cfg.kPointerSize := rfl
  rw [hs] at hc hd hsep
  have hc0 : (0 : Int) ≤ (c.toHeapObject.address cfg : Int) := Int.ofNat_nonneg _
  have hd0 : (0 : Int) ≤ (d.toHeapObject.address cfg : Int) := Int.ofNat_nonneg _
  have ec := valueAddress_cast_of_no_wrap cfg c (by rw [hv]; linarith) (by rw [hv]; linarith)
  have ed := valueAddress_cast_of_no_wrap cfg d (by rw [hv]; linarith) (by rw [hv]; linarith)
  rw [ec, ed, hs, hv]
  refine ⟨?_, ⟨by linarith, by linarith⟩, ⟨by linarith, by linarith⟩⟩
  rintro x ⟨⟨h1, h2⟩, ⟨h3, h4⟩⟩
  rcases hsep with h | h <;> linarith

theorem value_slots_disjoint_witness :
    (∀ x : Int,
        ¬ (((ValueAddress cfg64 cellAt1000 : Int) ≤ x ∧
            x < (ValueAddress cfg64 cellAt1000 : Int) + cfg64.kPointerSize) ∧
          ((ValueAddress cfg64 cellAt2000 : Int) ≤ x ∧
            x < (ValueAddress cfg64 cellAt2000 : Int) + cfg64.kPointerSize))) ∧
      ((cellAt1000.toHeapObject.address cfg64 : Int) ≤ (ValueAddress cfg64 cellAt1000 : Int) ∧
        (ValueAddress cfg64 cellAt1000 : Int) + cfg64.kPointerSize
          ≤ (cellAt1000.toHeapObject.address cfg64 : Int) + kSize cfg64) ∧
      ((cellAt2000.toHeapObject.address cfg64 : Int) ≤ (ValueAddress cfg64 cellAt2000 : Int) ∧
        (ValueAddress cfg64 cellAt2000 : Int) + cfg64.kPointerSize
          ≤ (cellAt2000.toHeapObject.address cfg64 : Int) + kSize cfg64) :=
  value_slots_disjoint cfg64 cellAt1000 cellAt2000 (by decide) (by decide) (by decide)
    (by decide) (Or.inl (by decide))

theorem dvd_wrapAddress (cfg : Config) (k z : Int)
    (hk : k ∣ (2 : Int) ^ cfg.addressBits) (hz : k ∣ z) :
    k ∣ ((wrapAddress cfg z : Nat) : Int) := by
  rw [wrapAddress_cast, Int.emod_def]
  exact dvd_sub hz (Dvd.dvd.mul_right hk _)

/-- C17: the layout arithmetic preserves pointer alignment.  If the header
size is a multiple of the pointer size, so are `kValueOffset` and `kSize`;
and, the pointer size dividing `2 ^ addressBits` as every power-of-two pointer
size does, the value address of a cell with a pointer-aligned start address is
pointer-aligned and the start address of `FromValueAddress` of a
pointer-aligned address is pointer-aligned.  Where the sum or difference does
not wrap, both hold for every pointer size. -/
theorem alignment_preserved (cfg : Config)
    (hHeader : cfg.kPointerSize ∣ cfg.kHeaderSize) :
    cfg.kPointerSize ∣ kValueOffset cfg ∧
      cfg.kPointerSize ∣ kSize cfg ∧
      (cfg.kPointerSize ∣ (2 : Int) ^ cfg.addressBits →
        (∀ c : Cell, cfg.kPointerSize ∣ (c.toHeapObject.address cfg : Int) →
          cfg.kPointerSize ∣ (ValueAddress cfg c : Int)) ∧
        (∀ a : Address, cfg.kPointerSize ∣ (a : Int) →
          cfg.kPointerSize ∣ ((FromValueAddress cfg a).toHeapObject.address cfg : Int))) ∧
      (∀ c : Cell, cfg.kPointerSize ∣ (c.toHeapObject.address cfg : Int) →
        0 ≤ (c.toHeapObject.address cfg : Int) + kValueOffset cfg →
        (c.toHeapObject.address cfg : Int) + kValueOffset cfg < 2 ^ cfg.addressBits →
        cfg.kPointerSize ∣ (ValueAddress cfg c : Int)) ∧
      (∀ a : Address, cfg.kPointerSize ∣ (a : Int) →
        kValueOffset cfg ≤ (a : Int) →
        (a : Int) - kValueOffset cfg < 2 ^ cfg.addressBits →
        cfg.kPointerSize ∣ ((FromValueAddress cfg a).toHeapObject.address cfg : Int)) := by
  have hv : cfg.kPointerSize ∣ kValueOffset cfg := hHeader
  have e : ∀ a : Address, (FromValueAddress cfg a).toHeapObject.address cfg
      = wrapAddress cfg ((a : Int) - kValueOffset cfg) := by
    intro a
    unfold FromValueAddress
    exact HeapObject.address_FromAddress cfg _
  refine ⟨hv, dvd_add hv (dvd_refl _), fun hk => ⟨fun c hc => ?_, fun a ha => ?_⟩,
    fun c hc h0 h1 => ?_, fun a ha h0 h1 => ?_⟩
  · unfold ValueAddress
    exact dvd_wrapAddress cfg _ _ hk (dvd_add hc hv)
  · rw [e]
    exact dvd_wrapAddress cfg _ _ hk (dvd_sub ha hv)
  · rw [valueAddress_cast_of_no_wrap cfg c h0 h1]
    exact dvd_add hc hv
  · rw [e, wrapAddress_of_nonneg_of_lt cfg _ (by linarith) h1]
    exact dvd_sub ha hv

theorem alignment_preserved_witness :
    cfg64.kPointerSize ∣ (ValueAddress cfg64 cellAt1000 : Int) ∧
      cfg64.kPointerSize ∣ ((FromValueAddress cfg64 0).toHeapObject.address cfg64 : Int) :=
  ⟨((alignment_preserved cfg64 (by decide)).2.2.1 (by decide)).1 cellAt1000 (by decide),
    ((alignment_preserved cfg64 (by decide)).2.2.1 (by decide)).2 0 (by decide)⟩

end Cell

end internal
end v8
